import Mathlib

/-!
# Verification of the `wfl` file-I/O calculator layer and its parallel engine

Shallow embedding of `src/wfl/calculators/wfl_fileio_calculator.py` and the
CLI configuration surface of `src/wfl/cli/cli_options.py`, together with
spec-modelled definitions for the Chunker / Parallel Dispatcher subsystem
(whose source is not part of the provided tree).

Python mutation is embedded as explicit state passing: a method that assigns
instance attributes is a function from the old state to the new state, and a
method that may `raise` returns a pair of (state reached, optional exception)
or an `Except` value.
-/

namespace Wfl

/-! ## Python paths

A `pathlib.Path` value is embedded as an absoluteness flag plus the list of
name components.  `Path(p).parent` drops the last component, `.name` is the
last component. -/

structure PyPath where
  absolute : Bool
  comps : List String
deriving DecidableEq, Repr

/-- `pathlib.Path.is_absolute()`. -/
def PyPath.is_absolute (p : PyPath) : Bool := p.absolute

/-- `pathlib.Path.parent` (drop the final component). -/
def PyPath.parent (p : PyPath) : PyPath := { p with comps := p.comps.dropLast }

/-- `pathlib.Path.name` (the final component, `""` for an empty path). -/
def PyPath.name (p : PyPath) : String := p.comps.getLastD ""

/-- `a / b` on `pathlib` paths: if `b` is absolute it replaces `a`. -/
def PyPath.join (a b : PyPath) : PyPath :=
  if b.absolute then b else { absolute := a.absolute, comps := a.comps ++ b.comps }

/-- `Path(".")`: the relative path with no real components. -/
def PyPath.dot : PyPath := { absolute := false, comps := [] }

/-! ## `WFLFileIOCalculator.__init__`

`def __init__(self, /, keep_files, rundir_prefix, workdir=None, scratchdir=None, **kwargs)`.

The `keep_files` argument (bool / None / "default" / list of globs). -/

inductive KeepFiles where
  | all                         -- True, "*"
  | nothing                     -- None, False
  | defaultSet                  -- "default"
  | globs (gs : List String)    -- list(str)
deriving DecidableEq, Repr

/-- Exceptions the constructor can raise. -/
inductive PyError where
  | valueError (msg : String)
  | attributeError (attr : String)
deriving DecidableEq, Repr

/-- The explicit constructor arguments plus the names of the remaining
`**kwargs` keyword arguments (only key presence matters to the embedded code). -/
structure InitArgs where
  keep_files : KeepFiles
  rundir_prefix : PyPath
  workdir : Option PyPath := none
  scratchdir : Option PyPath := none
  kwargs : List String := []
deriving Repr

/-- The instance attributes of a `WFLFileIOCalculator` as they are built up by
`__init__`.  Every field starts out absent (`none` / `false`); an attribute read
of an absent field is an `AttributeError` in Python. -/
structure PartialObj where
  superInited : Bool := false
  wfl_keep_files : Option KeepFiles := none
  wfl_rundir_prefix : Option PyPath := none
  wfl_workdir : Option (Option PyPath) := none
  wfl_scratchdir : Option (Option PyPath) := none
deriving Repr

/-- The freshly allocated object before `__init__` runs. -/
def PartialObj.empty : PartialObj := {}

/-- `WFLFileIOCalculator.__init__`, embedded line by line.  Returns the object
state reached together with the exception raised, if any.  The superclass
constructor (an ASE calculator) is modelled as setting only `superInited`: it
sets none of the `_wfl_*` attributes.

```
if "directory" in kwargs: raise ValueError("Cannot pass directory argument")
super().__init__(**kwargs)
self._wfl_keep_files = keep_files
self._wfl_rundir_prefix = Path(rundir_prefix)
if self._wfl_rundir_prefix.is_absolute():
    if self._wfl_workdir is not None:          # reads _wfl_workdir, not yet set
        raise ValueError(...)
self._wfl_workdir = Path(workdir) if workdir is not None else Path(".")
self._wfl_scratchdir = Path(scratchdir) if scratchdir is not None else None
```
-/
def WFLFileIOCalculator_init (args : InitArgs) : PartialObj × Option PyError :=
  let self := PartialObj.empty
  if args.kwargs.contains "directory" then
    (self, some (.valueError "Cannot pass directory argument"))
  else
    let self := { self with superInited := true }
    let self := { self with wfl_keep_files := some args.keep_files }
    let self := { self with wfl_rundir_prefix := some args.rundir_prefix }
    if args.rundir_prefix.is_absolute then
      -- `self._wfl_workdir` has not been assigned yet: the attribute read fails.
      match self.wfl_workdir with
      | none => (self, some (.attributeError "_wfl_workdir"))
      | some w =>
        if w.isSome then
          (self, some (.valueError "Can not specify workdir if rundir_prefix is an absolute path"))
        else
          let self := { self with wfl_workdir := some (some ((args.workdir.getD PyPath.dot))) }
          let self := { self with wfl_scratchdir := some args.scratchdir }
          (self, none)
    else
      let self := { self with wfl_workdir := some (some ((args.workdir.getD PyPath.dot))) }
      let self := { self with wfl_scratchdir := some args.scratchdir }
      (self, none)

/-! ## Filesystem model for `setup_rundir` / `clean_rundir`

Directories on disk are identified by their resolved absolute paths, embedded
as lists of name components.  `forbidden` lists the paths at which `mkdir`
raises (e.g. an unwritable root). -/

abbrev FsPath := List String

structure FileSystem where
  dirs : List FsPath
  forbidden : List FsPath := []
deriving DecidableEq, Repr

/-- Errors raised by the filesystem operations used in setup / teardown. -/
inductive OSError where
  | mkdirFailed (p : FsPath)
  | directoryNotEmpty
deriving DecidableEq, Repr

/-- All initial segments of a path, from the root down to the path itself. -/
def initialSegs : FsPath → List FsPath
  | [] => [[]]
  | c :: rest => [] :: (initialSegs rest).map (c :: ·)

/-- `Path.mkdir(parents=True, exist_ok=True)`: creates the directory and all
missing ancestors; raises if the path cannot be created. -/
def mkdirParents (fs : FileSystem) (p : FsPath) : Except OSError FileSystem :=
  if p ∈ fs.forbidden then .error (.mkdirFailed p)
  else .ok { fs with dirs := initialSegs p ++ fs.dirs }

/-- The calculator state relevant to `setup_rundir`, after a successful
`__init__`: `_wfl_workdir` is kept in resolved absolute form, and
`_wfl_rundir_prefix` is relative (an absolute prefix can never survive
`__init__`, see `init_absolute_prefix_always_raises`). -/
structure CalcState where
  wfl_rundir_prefix : PyPath
  wfl_workdir : FsPath
  wfl_scratchdir : Option FsPath := none
  cur_rundir : Option FsPath := none
  directory : Option FsPath := none
deriving DecidableEq, Repr

/-- `rundir_path = self._wfl_workdir / self._wfl_rundir_prefix.parent`
(the `/` join appends, the stored run-prefix being relative). -/
def rundirRoot (s : CalcState) : FsPath :=
  s.wfl_workdir ++ s.wfl_rundir_prefix.parent.comps

/-- The directory created by
`tempfile.mkdtemp(dir=rundir_path, prefix=self._wfl_rundir_prefix.name)`:
a child of `rundir_path` named prefix-plus-random-suffix.  The random suffix is
passed in explicitly; `mkdtemp`'s guarantee that the resulting name is new is a
hypothesis of the theorems below. -/
def curRundir (s : CalcState) (suffix : String) : FsPath :=
  rundirRoot s ++ [s.wfl_rundir_prefix.name ++ suffix]

/-- Render a resolved absolute path the way `str(Path(...).resolve())` does. -/
def posixStr (p : FsPath) : String := "/" ++ String.intercalate "/" p

/-- `str(self._cur_rundir.resolve()).replace("/", "", 1).replace("/", "_")`:
for an absolute path string the first occurrence of `/` is the leading one, so
removing it is dropping the first character; the single-character replacement
is computed on the character list. -/
def scratchDirName (cur : FsPath) : String :=
  ⟨((posixStr cur).data.drop 1).map (fun c => if c = '/' then '_' else c)⟩

/-- `WFLFileIOCalculator.setup_rundir`, embedded with explicit state passing.
Returns the filesystem and calculator state reached, plus the exception raised,
if any (in which case neither has been modified: the first failing operation
raises before any assignment to `self`). -/
def setup_rundir (fs : FileSystem) (s : CalcState) (suffix : String) :
    FileSystem × CalcState × Option OSError :=
  -- rundir_path = self._wfl_workdir / self._wfl_rundir_prefix.parent
  -- rundir_path.mkdir(parents=True, exist_ok=True)
  match mkdirParents fs (rundirRoot s) with
  | .error e => (fs, s, some e)
  | .ok fs1 =>
    -- self._cur_rundir = Path(tempfile.mkdtemp(dir=rundir_path, prefix=...))
    let cur := curRundir s suffix
    let fs2 := { fs1 with dirs := cur :: fs1.dirs }
    let s1 := { s with cur_rundir := some cur }
    match s.wfl_scratchdir with
    | some scratch =>
      -- dir_name = str(self._cur_rundir.resolve()).replace("/", "", 1).replace("/", "_")
      -- directory = self._wfl_scratchdir / dir_name; directory.mkdir(parents=True, exist_ok=True)
      let directory := scratch ++ [scratchDirName cur]
      match mkdirParents fs2 directory with
      | .error e => (fs, s, some e)
      | .ok fs3 => (fs3, { s1 with directory := some directory }, none)
    | none =>
      -- self.directory = self._cur_rundir
      (fs2, { s1 with directory := some cur }, none)

/-- The effective working path `setup_rundir` leaves in `self.directory`: the
scratch mirror when a scratch root is configured, the new run directory
otherwise. -/
def effectiveWorkPath (s : CalcState) (suffix : String) : FsPath :=
  match s.wfl_scratchdir with
  | some scratch => scratch ++ [scratchDirName (curRundir s suffix)]
  | none => curRundir s suffix

/-! ## `clean_rundir` (teardown) -/

/-- The teardown-relevant state: the top-level entry names of the working
directory `self.directory` and of the permanent run directory
`self._cur_rundir`, whether a scratch root was configured, and the observable
effects of teardown. -/
structure TeardownState where
  scratchUsed : Bool
  workEntries : List String
  permEntries : List String
  scratchDirExists : Bool := true
  warned : Bool := false
  directoryResetToDot : Bool := false
deriving DecidableEq, Repr

/-- Modelled from the spec: `wfl.calculators.utils.clean_rundir` (its source
file is not part of the provided tree) "deletes files not matching the keep
policy" — i.e. it keeps exactly the entries selected by the keep predicate. -/
def utils_clean_rundir (keep : String → Bool) (entries : List String) : List String :=
  entries.filter keep

/-- Modelled from the spec: the keep-policy variants "keep-all, keep-none,
keep-a-caller-provided-default-set, keep-explicit-glob-list", conditioned on
whether the calculation succeeded (a failed run keeps everything for
diagnosis).  Glob patterns are modelled as literal names. -/
def keepsFile (kf : KeepFiles) (defaults : List String) (succeeded : Bool) (f : String) : Bool :=
  if !succeeded then true
  else match kf with
    | .all => true
    | .nothing => false
    | .defaultSet => defaults.contains f
    | .globs gs => gs.contains f

/-- `Path(self.directory).glob("*")`: `pathlib`'s glob gives filenames starting
with a dot no special treatment, so the pattern `*` matches every entry. -/
def globStar (entries : List String) : List String := entries

/-- `WFLFileIOCalculator.clean_rundir`, embedded with explicit state passing;
`keep` is the keep predicate the `utils_clean_rundir` call applies (derived
from `self._wfl_keep_files`, `_default_keep_files`, `calculation_succeeded`).

```
utils_clean_rundir(self.directory, self._wfl_keep_files, _default_keep_files, calculation_succeeded)
if self._wfl_scratchdir is not None:
    for f in Path(self.directory).glob("*"):
        shutil.move(f, self._cur_rundir)
    if list(Path(self.directory).iterdir()) == []:
        warnings.warn(f"scratchdir {self.directory} is not empty, not deleting.")
    else:
        Path(self.directory).rmdir()
        self.directory = '.'
```
-/
def clean_rundir (keep : String → Bool) (s : TeardownState) :
    TeardownState × Option OSError :=
  let afterKeep := utils_clean_rundir keep s.workEntries
  if s.scratchUsed then
    -- for f in Path(self.directory).glob("*"): shutil.move(f, self._cur_rundir)
    let moved := globStar afterKeep
    let dirAfter := moved.foldl (fun d f => d.erase f) afterKeep
    let permAfter := moved.foldl (fun p f => p ++ [f]) s.permEntries
    if dirAfter = [] then
      -- `list(...iterdir()) == []` holds, so the code warns and keeps the dir
      ({ s with workEntries := dirAfter, permEntries := permAfter, warned := true }, none)
    else
      -- `Path(self.directory).rmdir()`: POSIX rmdir fails with ENOTEMPTY on a
      -- non-empty directory, and in this branch `dirAfter ≠ []`; the exception
      -- propagates before `self.directory = '.'` is reached.
      ({ s with workEntries := dirAfter, permEntries := permAfter }, some .directoryNotEmpty)
  else
    ({ s with workEntries := afterKeep }, none)

/-! ## CLI configuration surface (`src/wfl/cli/cli_options.py`) -/

/-- The `--num-inputs-per-python-subprocess` click option's declared default
(`default=10`). -/
def num_inputs_per_python_subprocess_default : Nat := 10

/-- Modelled from the spec: the `AutoparaInfo` invariant that the per-worker
chunk size is at least 1 ("worker count and per-worker chunk size are both
≥ 1"); the `AutoparaInfo` class itself is not part of the provided source
tree. -/
def autoparaChunkSizeInvariant (chunkSize : Nat) : Prop := 1 ≤ chunkSize

instance : DecidablePred autoparaChunkSizeInvariant := fun n =>
  inferInstanceAs (Decidable (1 ≤ n))

/-! ## Chunker and Parallel Dispatcher (spec §4.1, §4.5)

The `wfl.autoparallelize` sources are not part of the provided tree; the
definitions below are modelled from the spec. -/

universe u v

variable {α : Type u} {β : Type v}

/-- Modelled from the spec: one round of the Chunker — take up to `m + 1`
consecutive items off the remaining input as a chunk tagged with the starting
global index `i`, and continue on the rest.  The structurally decreasing
`fuel` argument (instantiated with the input length, an upper bound on the
number of rounds, each of which consumes at least one item) totalizes the
recursion. -/
def chunkerAux (m : Nat) : Nat → List α → Nat → List (Nat × List α)
  | _, [], _ => []
  | 0, _ :: _, _ => []
  | fuel + 1, x :: xs, i =>
      (i, x :: xs.take m) :: chunkerAux m fuel (xs.drop m) (i + m + 1)

/-- Modelled from the spec (§4.1 Chunker): "given an input sequence and a
target chunk size N, produces a lazy sequence of Chunks, each containing up to
N consecutive items, tagged with the starting global index."  Intended for
N ≥ 1 (the `AutoparaInfo` invariant). -/
def chunker (n : Nat) (xs : List α) : List (Nat × List α) :=
  chunkerAux (n - 1) xs.length xs 0

/-- Emit the records of a list of chunk-results in list order. -/
def emitChunks (l : List (Nat × List β)) : List β :=
  (l.map (fun p => p.2)).flatten

/-- Modelled from the spec (§4.5 step 3): a worker runs the Single-Item
Calculator Adapter once per item of its chunk, in order, and "returns the
ordered list of ResultRecords for that chunk tagged with its starting index".
`eval` is the per-item evaluation induced by the `CalculatorSpec`. -/
def processChunk (eval : α → β) (c : Nat × List α) : Nat × List β :=
  (c.1, c.2.map eval)

/-- Modelled from the spec (§4.5 step 4): "the dispatcher reorders completed
chunk-results by starting index". -/
def reorderByStart (l : List (Nat × List β)) : List (Nat × List β) :=
  l.insertionSort (fun p q => p.1 ≤ q.1)

/-- Modelled from the spec (§4.5 step 1): the serial in-process reference
path — all chunks run sequentially in input order and the records are emitted
as produced. -/
def serialRun (eval : α → β) (n : Nat) (xs : List α) : List β :=
  emitChunks ((chunker n xs).map (processChunk eval))

/-- Modelled from the spec (§4.5 steps 3–4): the parallel path — workers hand
back chunk-results in an arbitrary completion order, which the dispatcher
reorders by starting index before emitting. -/
def parallelEmit (completed : List (Nat × List β)) : List β :=
  emitChunks (reorderByStart completed)

/-- Modelled from the spec (§4.5): the Generic Runner's dispatch — "if
configured worker count ≤ 1 (or parallelism disabled), run all chunks
in-process, sequentially", otherwise run the pool, whose completion order
`completionOrder` (a permutation of the chunk-results) is arbitrary. -/
def generic_run (eval : α → β) (numWorkers n : Nat)
    (completionOrder : List (Nat × List β)) (xs : List α) : List β :=
  if numWorkers ≤ 1 then serialRun eval n xs
  else parallelEmit completionOrder

end Wfl

/-! # Theorems -/

namespace Wfl

/-- C9: passing a `directory` keyword argument makes `__init__` raise
`ValueError` before any initialization: the returned object state is the
untouched fresh object (no superclass `__init__`, no attributes set). -/
theorem init_directory_kwarg_raises_early (args : InitArgs)
    (h : args.kwargs.contains "directory") :
    WFLFileIOCalculator_init args =
      (PartialObj.empty, some (.valueError "Cannot pass directory argument")) := by
  have h' : "directory" ∈ args.kwargs := by simpa using h
  simp [WFLFileIOCalculator_init, h']

/-- Witness for C9 at a concrete argument record. -/
theorem init_directory_kwarg_raises_early_witness :
    ({ keep_files := .all, rundir_prefix := ⟨false, ["run"]⟩,
       kwargs := ["directory"] } : InitArgs).kwargs.contains "directory" = true ∧
    WFLFileIOCalculator_init
      { keep_files := .all, rundir_prefix := ⟨false, ["run"]⟩, kwargs := ["directory"] } =
      (PartialObj.empty, some (.valueError "Cannot pass directory argument")) :=
  ⟨by decide,
   init_directory_kwarg_raises_early
     { keep_files := .all, rundir_prefix := ⟨false, ["run"]⟩, kwargs := ["directory"] }
     (by decide)⟩

/-- C10: with an absolute `rundir_prefix` (and no `directory` kwarg) the
constructor always raises — the absolute-path check reads `self._wfl_workdir`
before that attribute is assigned, so an `AttributeError` escapes regardless of
the `workdir` argument, and no fully-initialized instance is ever produced. -/
theorem init_absolute_prefix_always_raises (args : InitArgs)
    (hd : args.kwargs.contains "directory" = false)
    (habs : args.rundir_prefix.is_absolute = true) :
    (WFLFileIOCalculator_init args).2 = some (.attributeError "_wfl_workdir") := by
  have hd' : "directory" ∉ args.kwargs := by simpa using hd
  simp [WFLFileIOCalculator_init, hd', habs, PartialObj.empty]

/-- Witness for C10: an absolute prefix raises both with and without `workdir`. -/
theorem init_absolute_prefix_always_raises_witness :
    (WFLFileIOCalculator_init
      { keep_files := .all, rundir_prefix := ⟨true, ["tmp", "run"]⟩ }).2 =
        some (.attributeError "_wfl_workdir") ∧
    (WFLFileIOCalculator_init
      { keep_files := .all, rundir_prefix := ⟨true, ["tmp", "run"]⟩,
        workdir := some ⟨true, ["work"]⟩ }).2 =
        some (.attributeError "_wfl_workdir") :=
  ⟨init_absolute_prefix_always_raises
      { keep_files := .all, rundir_prefix := ⟨true, ["tmp", "run"]⟩ }
      (by decide) (by decide),
   init_absolute_prefix_always_raises
      { keep_files := .all, rundir_prefix := ⟨true, ["tmp", "run"]⟩,
        workdir := some ⟨true, ["work"]⟩ }
      (by decide) (by decide)⟩

/-! ### Run-directory setup and teardown -/

theorem self_mem_initialSegs (p : FsPath) : p ∈ initialSegs p := by
  induction p with
  | nil => simp [initialSegs]
  | cons c rest ih =>
    simp only [initialSegs, List.mem_cons, List.mem_map]
    exact Or.inr ⟨rest, ih, rfl⟩

theorem foldl_erase_self (l : List String) :
    l.foldl (fun d f => d.erase f) l = [] := by
  induction l with
  | nil => rfl
  | cons a t ih =>
    simpa [List.foldl_cons, List.erase_cons_head] using ih

theorem foldl_push (l init : List String) :
    l.foldl (fun p f => p ++ [f]) init = init ++ l := by
  induction l generalizing init with
  | nil => simp
  | cons a t ih => simp [List.foldl_cons, ih]

/-- Helper: on every scratch-configured teardown, the embedded `clean_rundir`
moves all kept entries back, takes the warn branch (the emptiness test is
inverted in the source), and leaves the scratch directory in place. -/
theorem clean_rundir_scratch_outcome (keep : String → Bool) (s : TeardownState)
    (h : s.scratchUsed = true) :
    clean_rundir keep s =
      ({ s with workEntries := [],
                permEntries := s.permEntries ++ s.workEntries.filter keep,
                warned := true }, none) := by
  simp [clean_rundir, utils_clean_rundir, globStar, h, foldl_erase_self, foldl_push]

/-- C2: `setup_rundir` creates a new, uniquely-named run directory under
`workdir / rundir_prefix.parent` (creating that root as needed); when a scratch
root is configured it additionally creates the mirror directory under scratch
and redirects `self.directory` there, and otherwise `self.directory` is the new
run directory — in either case the effective working path is recorded in the
returned state and exists in the resulting filesystem.  The hypotheses are the
operations' contracts: the roots are creatable and `tempfile.mkdtemp` picked a
fresh name. -/
theorem setup_rundir_correct (fs : FileSystem) (s : CalcState) (suffix : String)
    (hroot : rundirRoot s ∉ fs.forbidden)
    (hscr : ∀ scr ∈ s.wfl_scratchdir,
      scr ++ [scratchDirName (curRundir s suffix)] ∉ fs.forbidden)
    (hfresh : curRundir s suffix ∉ fs.dirs) :
    ∃ fs' : FileSystem,
      setup_rundir fs s suffix =
        (fs', { s with cur_rundir := some (curRundir s suffix),
                       directory := some (effectiveWorkPath s suffix) }, none) ∧
      rundirRoot s ∈ fs'.dirs ∧
      curRundir s suffix ∈ fs'.dirs ∧
      curRundir s suffix ∉ fs.dirs ∧
      effectiveWorkPath s suffix ∈ fs'.dirs := by
  cases hsd : s.wfl_scratchdir with
  | none =>
    refine ⟨{ fs with
              dirs := curRundir s suffix :: (initialSegs (rundirRoot s) ++ fs.dirs) },
            ?_, ?_, ?_, hfresh, ?_⟩
    · simp [setup_rundir, mkdirParents, hroot, hsd, effectiveWorkPath]
    · exact List.mem_cons_of_mem _ (List.mem_append_left _ (self_mem_initialSegs _))
    · exact List.mem_cons_self _ _
    · simp only [effectiveWorkPath, hsd]
      exact List.mem_cons_self _ _
  | some scratch =>
    have hscr' := hscr scratch (by rw [hsd]; rfl)
    refine ⟨{ fs with
              dirs := initialSegs (scratch ++ [scratchDirName (curRundir s suffix)]) ++
                (curRundir s suffix :: (initialSegs (rundirRoot s) ++ fs.dirs)) },
            ?_, ?_, ?_, hfresh, ?_⟩
    · simp [setup_rundir, mkdirParents, hroot, hsd, hscr', effectiveWorkPath]
    · exact List.mem_append_right _
        (List.mem_cons_of_mem _ (List.mem_append_left _ (self_mem_initialSegs _)))
    · exact List.mem_append_right _ (List.mem_cons_self _ _)
    · simp only [effectiveWorkPath, hsd]
      exact List.mem_append_left _ (self_mem_initialSegs _)

/-- Witness for C2 at a concrete state with a scratch root configured. -/
theorem setup_rundir_correct_witness :
    (rundirRoot { wfl_rundir_prefix := ⟨false, ["run", "VASP_"]⟩,
                  wfl_workdir := ["home", "user"],
                  wfl_scratchdir := some ["scratch"] } ∉
        ({ dirs := [["home"]], forbidden := [] } : FileSystem).forbidden) ∧
    ∃ fs' : FileSystem,
      setup_rundir { dirs := [["home"]], forbidden := [] }
        { wfl_rundir_prefix := ⟨false, ["run", "VASP_"]⟩,
          wfl_workdir := ["home", "user"],
          wfl_scratchdir := some ["scratch"] } "abc123" =
        (fs', { wfl_rundir_prefix := ⟨false, ["run", "VASP_"]⟩,
                wfl_workdir := ["home", "user"],
                wfl_scratchdir := some ["scratch"],
                cur_rundir := some ["home", "user", "run", "VASP_abc123"],
                directory := some ["scratch", "home_user_run_VASP_abc123"] }, none) ∧
      ["home", "user", "run"] ∈ fs'.dirs ∧
      ["home", "user", "run", "VASP_abc123"] ∈ fs'.dirs ∧
      ["home", "user", "run", "VASP_abc123"] ∉
        ({ dirs := [["home"]], forbidden := [] } : FileSystem).dirs ∧
      ["scratch", "home_user_run_VASP_abc123"] ∈ fs'.dirs := by
  refine ⟨by decide, ?_⟩
  have h := setup_rundir_correct { dirs := [["home"]], forbidden := [] }
    { wfl_rundir_prefix := ⟨false, ["run", "VASP_"]⟩,
      wfl_workdir := ["home", "user"],
      wfl_scratchdir := some ["scratch"] } "abc123"
    (by decide) (by intro scr hs hmem; simp at hmem) (by decide)
  have hs : scratchDirName ["home", "user", "run", "VASP_abc123"] =
      "home_user_run_VASP_abc123" := by decide
  simpa [rundirRoot, curRundir, effectiveWorkPath, PyPath.parent, PyPath.name, hs] using h

/-- C7: if the permanent run-directory root cannot be created, `setup_rundir`
propagates the `mkdir` error and neither the filesystem nor the calculator
state is touched: no run directory, no scratch mirror, and the
working-directory attribute is left unset. -/
theorem setup_rundir_root_failure (fs : FileSystem) (s : CalcState) (suffix : String)
    (hbad : rundirRoot s ∈ fs.forbidden) :
    setup_rundir fs s suffix = (fs, s, some (.mkdirFailed (rundirRoot s))) := by
  simp [setup_rundir, mkdirParents, hbad]

/-- Witness for C7: with an unwritable root, setup fails and the returned
state still has no `_cur_rundir` and no `directory` attribute. -/
theorem setup_rundir_root_failure_witness :
    (rundirRoot { wfl_rundir_prefix := ⟨false, ["run_"]⟩,
                  wfl_workdir := ["unwritable"] } ∈
        ({ dirs := [], forbidden := [["unwritable"]] } : FileSystem).forbidden) ∧
    setup_rundir { dirs := [], forbidden := [["unwritable"]] }
        { wfl_rundir_prefix := ⟨false, ["run_"]⟩, wfl_workdir := ["unwritable"] } "xyz" =
      ({ dirs := [], forbidden := [["unwritable"]] },
       { wfl_rundir_prefix := ⟨false, ["run_"]⟩, wfl_workdir := ["unwritable"],
         wfl_scratchdir := none, cur_rundir := none, directory := none },
       some (.mkdirFailed ["unwritable"])) :=
  ⟨by decide,
   setup_rundir_root_failure { dirs := [], forbidden := [["unwritable"]] }
     { wfl_rundir_prefix := ⟨false, ["run_"]⟩, wfl_workdir := ["unwritable"] } "xyz"
     (by decide)⟩

/-- C1 (code behaviour at a failing input): a scratch teardown in which every
entry is kept and moved back, so the scratch working directory is empty
afterwards.  The claim (and the source's own warning message) call for an
empty directory to be removed silently, but the inverted emptiness test makes
the code warn and leave the empty directory in place. -/
theorem clean_rundir_inverted_emptiness_check :
    clean_rundir (keepsFile .all [] true)
      { scratchUsed := true, workEntries := ["output.castep"], permEntries := [] } =
      ({ scratchUsed := true, workEntries := [], permEntries := ["output.castep"],
         scratchDirExists := true, warned := true, directoryResetToDot := false },
       none) := by
  rfl

/-- C3 (code behaviour at a failing input): after the keep step every
remaining entry is moved back to the permanent run directory, but the scratch
working directory is never removed — the inverted emptiness test routes the
(now empty) directory to the warn-and-keep branch instead of `rmdir`. -/
theorem clean_rundir_moves_back_but_never_removes :
    clean_rundir (keepsFile (.globs ["results.out", "log.txt"]) [] true)
      { scratchUsed := true,
        workEntries := ["results.out", "scratch.tmp", "log.txt"],
        permEntries := ["input.in"] } =
      ({ scratchUsed := true, workEntries := [],
         permEntries := ["input.in", "results.out", "log.txt"],
         scratchDirExists := true, warned := true, directoryResetToDot := false },
       none) := by
  rfl

/-! ### Chunker -/

theorem chunkerAux_nil {α : Type*} (m fuel i : Nat) :
    chunkerAux m fuel ([] : List α) i = [] := by
  cases fuel <;> rfl

theorem chunkerAux_flatten {α : Type*} (m : Nat) :
    ∀ (fuel : Nat) (xs : List α) (i : Nat), xs.length ≤ fuel →
      emitChunks (chunkerAux m fuel xs i) = xs := by
  intro fuel
  induction fuel with
  | zero =>
    intro xs i h
    have hx : xs = [] := List.eq_nil_of_length_eq_zero (Nat.le_zero.mp h)
    subst hx; rfl
  | succ fuel ih =>
    intro xs i h
    cases xs with
    | nil => rfl
    | cons x xs =>
      have hlen : (xs.drop m).length ≤ fuel := by
        simp only [List.length_drop]
        simp only [List.length_cons] at h
        omega
      have hrec := ih (xs.drop m) (i + m + 1) hlen
      simp only [chunkerAux, emitChunks, List.map_cons, List.flatten_cons] at hrec ⊢
      rw [hrec]
      simp

theorem chunkerAux_key_ge {α : Type*} (m : Nat) :
    ∀ (fuel : Nat) (xs : List α) (i : Nat) (p : Nat × List α),
      p ∈ chunkerAux m fuel xs i → i ≤ p.1 := by
  intro fuel
  induction fuel with
  | zero => intro xs i p hp; cases xs <;> simp [chunkerAux] at hp
  | succ fuel ih =>
    intro xs i p hp
    cases xs with
    | nil => simp [chunkerAux] at hp
    | cons x xs =>
      simp only [chunkerAux, List.mem_cons] at hp
      rcases hp with rfl | hp
      · exact Nat.le_refl _
      · have := ih (xs.drop m) (i + m + 1) p hp
        omega

theorem chunkerAux_pairwise {α : Type*} (m : Nat) :
    ∀ (fuel : Nat) (xs : List α) (i : Nat),
      (chunkerAux m fuel xs i).Pairwise (fun p q => p.1 < q.1) := by
  intro fuel
  induction fuel with
  | zero => intro xs i; cases xs <;> simp [chunkerAux]
  | succ fuel ih =>
    intro xs i
    cases xs with
    | nil => simp [chunkerAux]
    | cons x xs =>
      simp only [chunkerAux]
      refine List.Pairwise.cons ?_ (ih _ _)
      intro q hq
      have := chunkerAux_key_ge m fuel (xs.drop m) (i + m + 1) q hq
      show i < q.1
      omega

theorem chunkerAux_content {α : Type*} (m : Nat) :
    ∀ (fuel : Nat) (xs : List α) (i : Nat) (p : Nat × List α),
      xs.length ≤ fuel → p ∈ chunkerAux m fuel xs i →
      i ≤ p.1 ∧ p.2 = (xs.drop (p.1 - i)).take (m + 1) := by
  intro fuel
  induction fuel with
  | zero =>
    intro xs i p h hp
    have hx : xs = [] := List.eq_nil_of_length_eq_zero (Nat.le_zero.mp h)
    subst hx; simp [chunkerAux] at hp
  | succ fuel ih =>
    intro xs i p h hp
    cases xs with
    | nil => simp [chunkerAux] at hp
    | cons x xs =>
      simp only [chunkerAux, List.mem_cons] at hp
      rcases hp with rfl | hp
      · refine ⟨Nat.le_refl _, ?_⟩
        simp [List.take_succ_cons]
      · have hlen : (xs.drop m).length ≤ fuel := by
          simp only [List.length_drop]
          simp only [List.length_cons] at h
          omega
        obtain ⟨h1, h2⟩ := ih (xs.drop m) (i + m + 1) p hlen hp
        refine ⟨by omega, ?_⟩
        have hidx : p.1 - i = (p.1 - (i + m + 1)) + m + 1 := by omega
        rw [hidx, List.drop_succ_cons, h2, List.drop_drop,
          Nat.add_comm m (p.1 - (i + m + 1))]

theorem chunkerAux_length {α : Type*} (m : Nat) :
    ∀ (fuel : Nat) (xs : List α) (i : Nat) (p : Nat × List α),
      p ∈ chunkerAux m fuel xs i → 1 ≤ p.2.length ∧ p.2.length ≤ m + 1 := by
  intro fuel
  induction fuel with
  | zero => intro xs i p hp; cases xs <;> simp [chunkerAux] at hp
  | succ fuel ih =>
    intro xs i p hp
    cases xs with
    | nil => simp [chunkerAux] at hp
    | cons x xs =>
      simp only [chunkerAux, List.mem_cons] at hp
      rcases hp with rfl | hp
      · simp only [List.length_cons, List.length_take]
        omega
      · exact ih (xs.drop m) (i + m + 1) p hp

theorem chunkerAux_dropLast_length {α : Type*} (m : Nat) :
    ∀ (fuel : Nat) (xs : List α) (i : Nat) (p : Nat × List α),
      p ∈ (chunkerAux m fuel xs i).dropLast → p.2.length = m + 1 := by
  intro fuel
  induction fuel with
  | zero => intro xs i p hp; cases xs <;> simp [chunkerAux] at hp
  | succ fuel ih =>
    intro xs i p hp
    cases xs with
    | nil => simp [chunkerAux] at hp
    | cons x xs =>
      simp only [chunkerAux] at hp
      cases hrest : chunkerAux m fuel (xs.drop m) (i + m + 1) with
      | nil => rw [hrest] at hp; simp at hp
      | cons r rs =>
        rw [hrest] at hp
        have hne : xs.drop m ≠ [] := by
          intro h0
          rw [h0, chunkerAux_nil] at hrest
          exact List.cons_ne_nil r rs hrest.symm
        have hmlt : m < xs.length := by
          by_contra hc
          exact hne (List.drop_eq_nil_iff.2 (by omega))
        rw [List.dropLast_cons_of_ne_nil (List.cons_ne_nil r rs), List.mem_cons] at hp
        rcases hp with rfl | hp
        · simp only [List.length_cons, List.length_take]
          omega
        · exact ih (xs.drop m) (i + m + 1) p (by rw [hrest]; exact hp)

/-- C6: for every finite input and target chunk size N ≥ 1, the Chunker yields
consecutive chunks (their concatenation is the input), each chunk tagged with
the starting global index and holding up to N items, every chunk except
possibly the last holding exactly N; a zero-length input yields zero chunks;
and 23 inputs at chunk size 10 give 3 chunks of sizes 10, 10, 3. -/
theorem chunker_spec {α : Type*} (n : Nat) (xs : List α) (hn : 1 ≤ n) :
    emitChunks (chunker n xs) = xs ∧
    (∀ p ∈ chunker n xs, p.2 = (xs.drop p.1).take n) ∧
    (∀ p ∈ (chunker n xs).dropLast, p.2.length = n) ∧
    (∀ p ∈ chunker n xs, 1 ≤ p.2.length ∧ p.2.length ≤ n) ∧
    (xs = [] → chunker n xs = []) ∧
    (chunker 10 (List.range 23)).map (fun p => (p.1, p.2.length)) =
      [(0, 10), (10, 10), (20, 3)] := by
  refine ⟨?_, ?_, ?_, ?_, ?_, by decide⟩
  · exact chunkerAux_flatten (n - 1) xs.length xs 0 (Nat.le_refl _)
  · intro p hp
    have h := (chunkerAux_content (n - 1) xs.length xs 0 p (Nat.le_refl _) hp).2
    rw [h, Nat.sub_zero]
    congr 1
    omega
  · intro p hp
    have := chunkerAux_dropLast_length (n - 1) xs.length xs 0 p hp
    omega
  · intro p hp
    have := chunkerAux_length (n - 1) xs.length xs 0 p hp
    omega
  · intro h; subst h; rfl

/-- Witness for C6 at the spec's own example: 23 inputs, chunk size 10. -/
theorem chunker_spec_witness :
    (1 ≤ 10) ∧
    emitChunks (chunker 10 (List.range 23)) = List.range 23 ∧
    (chunker 10 (List.range 23)).map (fun p => (p.1, p.2.length)) =
      [(0, 10), (10, 10), (20, 3)] :=
  ⟨by decide, (chunker_spec 10 (List.range 23) (by decide)).1,
   (chunker_spec 10 (List.range 23) (by decide)).2.2.2.2.2⟩

/-! ### Parallel Dispatcher -/

theorem serialRun_eq_map {α β : Type*} (eval : α → β) (n : Nat) (xs : List α) :
    serialRun eval n xs = xs.map eval := by
  have h := chunkerAux_flatten (n - 1) xs.length xs 0 (Nat.le_refl _)
  simp only [serialRun, chunker, emitChunks, List.map_map] at h ⊢
  rw [show ((fun (p : Nat × List β) => p.2) ∘ processChunk eval) =
      (List.map eval ∘ fun (p : Nat × List α) => p.2) from rfl]
  rw [← List.map_map, ← List.map_flatten, h]

theorem reorderByStart_eq_of_perm {β : Type*} (orig completed : List (Nat × List β))
    (hsorted : orig.Pairwise (fun p q => p.1 < q.1))
    (hperm : completed.Perm orig) :
    reorderByStart completed = orig := by
  haveI h1 : IsTotal (Nat × List β) (fun p q => p.1 ≤ q.1) := ⟨fun a b => Nat.le_total _ _⟩
  haveI h2 : IsTrans (Nat × List β) (fun p q => p.1 ≤ q.1) :=
    ⟨fun _ _ _ hab hbc => Nat.le_trans hab hbc⟩
  haveI h3 : IsAntisymm (Nat × List β) (fun p q => p.1 < q.1) :=
    ⟨fun _ _ hab hba => absurd (Nat.lt_trans hab hba) (Nat.lt_irrefl _)⟩
  have hperm2 : (reorderByStart completed).Perm orig :=
    (List.perm_insertionSort _ _).trans hperm
  have hle : (reorderByStart completed).Pairwise (fun p q => p.1 ≤ q.1) :=
    List.sorted_insertionSort _ _
  have hkeysle : ((reorderByStart completed).map (fun p => p.1)).Sorted (· ≤ ·) :=
    List.pairwise_map.2 hle
  have horignodup : (orig.map (fun p => p.1)).Nodup :=
    List.Pairwise.nodup (List.pairwise_map.2 hsorted)
  have hkeysnodup : ((reorderByStart completed).map (fun p => p.1)).Nodup :=
    ((hperm2.map (fun p => p.1)).nodup_iff).2 horignodup
  have hkeyslt : ((reorderByStart completed).map (fun p => p.1)).Sorted (· < ·) :=
    hkeysle.lt_of_le hkeysnodup
  have hlt : (reorderByStart completed).Pairwise (fun p q => p.1 < q.1) :=
    List.pairwise_map.1 hkeyslt
  exact List.eq_of_perm_of_sorted hperm2 hlt hsorted

theorem parallelEmit_eq_map {α β : Type*} (eval : α → β) (n : Nat) (xs : List α)
    (completed : List (Nat × List β))
    (hperm : completed.Perm ((chunker n xs).map (processChunk eval))) :
    parallelEmit completed = xs.map eval := by
  have hpw : ((chunker n xs).map (processChunk eval)).Pairwise (fun p q => p.1 < q.1) := by
    refine List.pairwise_map.2 ?_
    exact chunkerAux_pairwise (n - 1) xs.length xs 0
  rw [parallelEmit, reorderByStart_eq_of_perm _ _ hpw hperm]
  exact serialRun_eq_map eval n xs

/-- C4: for every input sequence, chunk size ≥ 1 and completion order of the
chunk-results (any permutation, covering every worker count and any
interleaving across workers), the records the dispatcher emits after
reordering completed chunk-results by starting index are exactly the per-item
results in input order. -/
theorem dispatcher_output_order {α β : Type*} (eval : α → β) (n : Nat) (xs : List α)
    (completed : List (Nat × List β)) (_hn : 1 ≤ n)
    (hperm : completed.Perm ((chunker n xs).map (processChunk eval))) :
    parallelEmit completed = xs.map eval :=
  parallelEmit_eq_map eval n xs completed hperm

/-- Witness for C4: chunks of [1,2,3,4,5] at size 2 completed out of order. -/
theorem dispatcher_output_order_witness :
    (1 ≤ 2) ∧
    ([(4, [10]), (0, [2, 4]), (2, [6, 8])] : List (Nat × List Nat)).Perm
      ((chunker 2 [1, 2, 3, 4, 5]).map (processChunk (fun k => 2 * k))) ∧
    parallelEmit ([(4, [10]), (0, [2, 4]), (2, [6, 8])] : List (Nat × List Nat)) =
      [1, 2, 3, 4, 5].map (fun k => 2 * k) :=
  ⟨by decide, by decide,
   dispatcher_output_order (fun k => 2 * k) 2 [1, 2, 3, 4, 5]
     [(4, [10]), (0, [2, 4]), (2, [6, 8])] (by decide) (by decide)⟩

/-- C5: the Generic Runner produces the same sequence of records whether it
takes the serial in-process path (worker count ≤ 1) or the parallel pool path
with any completion order of the chunk-results. -/
theorem serial_parallel_equal {α β : Type*} (eval : α → β) (numWorkers n : Nat)
    (xs : List α) (completionOrder : List (Nat × List β)) (_hn : 1 ≤ n)
    (hperm : completionOrder.Perm ((chunker n xs).map (processChunk eval))) :
    generic_run eval numWorkers n completionOrder xs = serialRun eval n xs := by
  unfold generic_run
  split
  · rfl
  · rw [parallelEmit_eq_map eval n xs completionOrder hperm, serialRun_eq_map]

/-- Witness for C5: an 8-worker run with out-of-order completions agrees with
the serial path. -/
theorem serial_parallel_equal_witness :
    (1 ≤ 2) ∧
    ([(2, [6, 8]), (4, [10]), (0, [2, 4])] : List (Nat × List Nat)).Perm
      ((chunker 2 [1, 2, 3, 4, 5]).map (processChunk (fun k => 2 * k))) ∧
    generic_run (fun k => 2 * k) 8 2 [(2, [6, 8]), (4, [10]), (0, [2, 4])] [1, 2, 3, 4, 5] =
      serialRun (fun k => 2 * k) 2 [1, 2, 3, 4, 5] :=
  ⟨by decide, by decide,
   serial_parallel_equal (fun k => 2 * k) 8 2 [1, 2, 3, 4, 5]
     [(2, [6, 8]), (4, [10]), (0, [2, 4])] (by decide) (by decide)⟩

/-- C8: the `--num-inputs-per-python-subprocess` option defaults to the fixed
positive constant 10, which satisfies the `AutoparaInfo` chunk-size ≥ 1
invariant. -/
theorem num_inputs_per_python_subprocess_default_valid :
    num_inputs_per_python_subprocess_default = 10 ∧
    autoparaChunkSizeInvariant num_inputs_per_python_subprocess_default := by
  constructor
  · rfl
  · decide

end Wfl
